import Mathlib

/-!
Shallow embedding of the conditional validation engine of
`src/src/App.js` (a React job-application form validated with a yup
object schema, yup 0.32-style `when` conditionals).

The embedding covers:
* the raw JavaScript values the form can hold in a field (`JSValue`);
* yup's per-type casts (`castNumber`, `castString`, `castDate`,
  `castArray`), including the number transform that strips whitespace
  and turns the empty string and non-numeric text into `NaN`;
* the constraints of `validationSchema` (lines 7-26 of App.js), with
  `when('position', ...)` resolved against the full record and the
  `then` branch concatenated onto the base schema, as yup does;
* the evaluation pipeline of `handleSubmit` (lines 60-75): validate
  with `abortEarly: false` — the type check of a field short-circuits
  its other tests, but across fields every field is evaluated — and
  the construction of the error map by `validationErrors[error.path]
  = error.message` (later entries for the same path overwrite).

Simplifications, none of which a claim depends on: the email / URL
checks are structural recognizers for the same shape of input as
yup's regexes (local@domain with dotted labels; optional http/https/
ftp scheme then `//` and a non-empty body); number parsing covers
decimal literals with optional sign and fraction (no exponents or
hex); date strings are recognized only in `YYYY-MM-DD` form (the UI
always supplies `Date` objects); JSON-array parsing of strings and
the exact wording of yup's default locale type-error messages are
abbreviated.
-/

/-- A JavaScript number, kept as an unnormalized fraction `num / den`
(`den` is a power of ten for parsed decimal literals). Only ordering
comparisons are ever applied to it, so normalization is not needed. -/
structure JSNum where
  num : Int
  den : Nat
deriving DecidableEq, Repr

/-- `n ≤ q` for a natural bound `n`, by cross-multiplication. -/
def JSNum.geNat (q : JSNum) (n : Nat) : Bool :=
  decide ((n : Int) * (q.den : Int) ≤ q.num)

/-- A raw JavaScript value as it can appear in the form's draft record:
a string (text inputs), a number, a valid `Date`, an `Invalid Date`
object, an array of selected options, or `undefined` (field absent). -/
inductive JSValue where
  | vStr (s : String)
  | vNum (q : JSNum)
  | vDate (ms : Int)
  | vInvalidDate
  | vArr (xs : List String)
  | vUndef
deriving DecidableEq, Repr

/-- Split a character list on a separator, keeping empty segments
(the analogue of `String.split` on one character). -/
def splitOnChar (sep : Char) : List Char → List (List Char)
  | [] => [[]]
  | c :: t =>
    match splitOnChar sep t with
    | [] => [[]]
    | h :: r => if c = sep then [] :: h :: r else (c :: h) :: r

def allDigits (l : List Char) : Bool := l.all Char.isDigit

def natOfDigits (l : List Char) : Nat :=
  l.foldl (fun a c => a * 10 + (c.toNat - 48)) 0

def dotChar : Char := ('.' : Char)

def hyphenChar : Char := ('-' : Char)

def atChar : Char := ('@' : Char)

/-- Strip a leading sign, returning the sign as `1` or `-1`. -/
def parseSign (l : List Char) : Int × List Char :=
  match l with
  | [] => (1, [])
  | c :: t =>
    if ['-'].contains c then (-1, t)
    else if ['+'].contains c then (1, t)
    else (1, c :: t)

/-- Parse a JavaScript numeric literal of the form `[+-]digits[.digits]`
(also `.5` and `5.`), the shapes `+string` accepts that this form can
produce; anything else is `none`, i.e. `NaN`. -/
def parseNumber (l : List Char) : Option JSNum :=
  let sl := parseSign l
  match splitOnChar dotChar sl.2 with
  | [ip] =>
    if allDigits ip && !ip.isEmpty then some ⟨sl.1 * (natOfDigits ip : Int), 1⟩
    else none
  | [ip, fp] =>
    if allDigits ip && allDigits fp && (!ip.isEmpty || !fp.isEmpty) then
      some ⟨sl.1 * ((natOfDigits ip : Int) * (10 ^ fp.length : Nat) + (natOfDigits fp : Int)),
            10 ^ fp.length⟩
    else none
  | _ => none

/-- Result of yup's number cast: the value is absent (`undefined`),
`NaN`, or an actual number. -/
inductive NumCast where
  | absent
  | nan
  | num (q : JSNum)
deriving DecidableEq, Repr

/-- yup's number transform: `undefined` is left alone; strings have all
whitespace stripped, the empty string becomes `NaN`, otherwise the
string is converted with unary `+`; numbers pass through; any other
value ends up `NaN`. -/
def castNumber : JSValue → NumCast
  | JSValue.vUndef => NumCast.absent
  | JSValue.vNum q => NumCast.num q
  | JSValue.vStr s =>
    let l := s.toList.filter (fun c => !c.isWhitespace)
    if l.isEmpty then NumCast.nan
    else
      match parseNumber l with
      | some q => NumCast.num q
      | none => NumCast.nan
  | _ => NumCast.nan

/-- Fraction display of a number, standing in for JavaScript's
number-to-string conversion (only reachable when a number is stored in
a string-typed field, which the UI never does). -/
def ratDisplay (q : JSNum) : String :=
  if q.den = 1 then toString q.num else toString q.num ++ "/" ++ toString q.den

/-- yup's string transform: `undefined` is left alone (absent), every
other value becomes a string via `toString`. -/
def castString : JSValue → Option String
  | JSValue.vUndef => none
  | JSValue.vStr s => some s
  | JSValue.vNum q => some (ratDisplay q)
  | JSValue.vArr xs => some (String.intercalate "," xs)
  | JSValue.vDate _ => some "[object Date]"
  | JSValue.vInvalidDate => some "Invalid Date"

/-- Result of yup's date cast: absent, an invalid date, or a valid one. -/
inductive DateCast where
  | absent
  | invalid
  | valid
deriving DecidableEq, Repr

/-- Recognizer for `YYYY-MM-DD` date strings. -/
def isIsoDate (s : String) : Bool :=
  match splitOnChar hyphenChar s.toList with
  | [y, m, d] =>
    decide (y.length = 4) && allDigits y &&
    decide (m.length = 2) && allDigits m &&
    decide (d.length = 2) && allDigits d &&
    decide (1 ≤ natOfDigits m) && decide (natOfDigits m ≤ 12) &&
    decide (1 ≤ natOfDigits d) && decide (natOfDigits d ≤ 31)
  | _ => false

/-- yup's date cast: `undefined` stays absent; `Date` objects keep
their validity; numbers are finite timestamps, hence valid; strings
are valid exactly when they parse as dates; anything else is invalid. -/
def castDate : JSValue → DateCast
  | JSValue.vUndef => DateCast.absent
  | JSValue.vDate _ => DateCast.valid
  | JSValue.vInvalidDate => DateCast.invalid
  | JSValue.vNum _ => DateCast.valid
  | JSValue.vStr s => if isIsoDate s then DateCast.valid else DateCast.invalid
  | JSValue.vArr _ => DateCast.invalid

/-- Result of yup's array cast. -/
inductive ArrCast where
  | absent
  | notArr
  | arr (xs : List String)
deriving DecidableEq, Repr

/-- yup's array cast: `undefined` stays absent, arrays pass through,
every other value fails the array type check. -/
def castArray : JSValue → ArrCast
  | JSValue.vUndef => ArrCast.absent
  | JSValue.vArr xs => ArrCast.arr xs
  | _ => ArrCast.notArr

/-- Characters allowed in the local part of an email address (a subset
of what yup's email regex accepts). -/
def emailLocalChar (c : Char) : Bool :=
  c.isAlphanum || (("!#$%&*+-/=?^_.").toList).contains c

def labelChar (c : Char) : Bool := c.isAlphanum || ['-'].contains c

def isLabel (l : List Char) : Bool := !l.isEmpty && l.all labelChar

/-- A dotted domain: at least two non-empty labels of letters, digits
and hyphens. -/
def isDomain (l : List Char) : Bool :=
  let parts := splitOnChar dotChar l
  decide (2 ≤ parts.length) && parts.all isLabel

/-- Recognizer standing in for yup's email regex: `local@domain`. -/
def isEmail (s : String) : Bool :=
  match splitOnChar atChar s.toList with
  | [loc, dom] => !loc.isEmpty && loc.all emailLocalChar && isDomain dom
  | _ => false

def listStartsWith : List Char → List Char → Bool
  | [], _ => true
  | _ :: _, [] => false
  | p :: ps, c :: cs => p = c && listStartsWith ps cs

def urlChar (c : Char) : Bool :=
  c.isAlphanum || (("-._~:/?#[]@!$&*+,;=%()").toList).contains c

def stripScheme (l : List Char) : List Char :=
  if listStartsWith (("https:").toList) l then l.drop 6
  else if listStartsWith (("http:").toList) l then l.drop 5
  else if listStartsWith (("ftp:").toList) l then l.drop 4
  else l

/-- Recognizer standing in for yup's URL regex: an optional `http`,
`https` or `ftp` scheme, then `//`, then a non-empty body of URL
characters. -/
def isUrl (s : String) : Bool :=
  let t := stripScheme s.toList
  listStartsWith (("//").toList) t && !(t.drop 2).isEmpty && (t.drop 2).all urlChar

example : isUrl "https://x.com" = true := by decide
example : isUrl "notaurl" = false := by decide
example : isEmail "ada@example.com" = true := by decide
example : parseNumber (("abc").toList) = none := by decide
example : parseNumber (("3").toList) = some ⟨3, 1⟩ := by decide
example : parseNumber (("1.5").toList) = some ⟨15, 10⟩ := by decide

/-- A single yup test: a pass/fail predicate on the field's raw value
(the cast is applied inside the predicate) plus the failure message. -/
structure Constraint where
  pass : JSValue → Bool
  message : String

/-- A field's resolved schema: the type check, which short-circuits the
remaining tests when it fails, and the ordered test list. -/
structure FieldSchema where
  typeCheck : Constraint
  tests : List Constraint

/-- Type check of a string-typed field: yup's string transform turns
every present value into a string, so it never fails (the message is
yup's default locale text, abbreviated). -/
def stringTypeC (msg : String) : Constraint := ⟨fun _ => true, msg⟩

/-- Type check of a number-typed field: fails exactly when the cast
value is `NaN` (absent values are skipped). -/
def numberTypeC (msg : String) : Constraint :=
  ⟨fun v => !(castNumber v == NumCast.nan), msg⟩

/-- Type check of an array-typed field. -/
def arrayTypeC (msg : String) : Constraint :=
  ⟨fun v => !(castArray v == ArrCast.notArr), msg⟩

/-- Type check of a date-typed field: fails on invalid dates. -/
def dateTypeC (msg : String) : Constraint :=
  ⟨fun v => !(castDate v == DateCast.invalid), msg⟩

/-- `string().required(msg)`: fails when the value is absent or the
empty string. -/
def requiredStrC (msg : String) : Constraint :=
  ⟨fun v => match castString v with
    | none => false
    | some s => !(s == ""), msg⟩

/-- `number().required(msg)`: fails only when the value is absent
(`NaN` is present, so it passes this test and fails the type check). -/
def requiredNumC (msg : String) : Constraint :=
  ⟨fun v => !(castNumber v == NumCast.absent), msg⟩

/-- `date().required(msg)`: fails only when the value is absent. -/
def requiredDateC (msg : String) : Constraint :=
  ⟨fun v => !(castDate v == DateCast.absent), msg⟩

/-- A format test such as `string().email(msg)` or `string().url(msg)`:
yup builds these with `matches(regex, \x7b excludeEmptyString: true \x7d)`,
so absent values and the empty string pass, and other strings pass
exactly when the recognizer accepts them. -/
def formatC (check : String → Bool) (msg : String) : Constraint :=
  ⟨fun v => match castString v with
    | none => true
    | some s => s == "" || check s, msg⟩

/-- `number().min(n, msg)`: absent values pass; `NaN >= n` is false in
JavaScript, so `NaN` fails; numbers pass when at least `n`. -/
def minNumC (n : Nat) (msg : String) : Constraint :=
  ⟨fun v => match castNumber v with
    | NumCast.absent => true
    | NumCast.nan => false
    | NumCast.num q => q.geNat n, msg⟩

/-- `array().min(n, msg)`: absent values pass; non-arrays have no
`.length`, so `undefined >= n` is false and they fail; arrays pass
when they hold at least `n` items. -/
def minArrC (n : Nat) (msg : String) : Constraint :=
  ⟨fun v => match castArray v with
    | ArrCast.absent => true
    | ArrCast.notArr => false
    | ArrCast.arr xs => decide (n ≤ xs.length), msg⟩

/-- The nine fields of `validationSchema`, in shape order. -/
inductive FieldName where
  | fullName
  | email
  | phoneNumber
  | position
  | relevantExperience
  | portfolioURL
  | managementExperience
  | additionalSkills
  | interviewTime
deriving DecidableEq, Repr, Fintype

/-- The candidate record: one raw value per form field, mirroring the
`formData` state object of App.js. -/
structure Record where
  fullName : JSValue
  email : JSValue
  phoneNumber : JSValue
  position : JSValue
  relevantExperience : JSValue
  portfolioURL : JSValue
  managementExperience : JSValue
  additionalSkills : JSValue
  interviewTime : JSValue
deriving DecidableEq, Repr

/-- Look a field up in the record. -/
def Record.get (r : Record) : FieldName → JSValue
  | FieldName.fullName => r.fullName
  | FieldName.email => r.email
  | FieldName.phoneNumber => r.phoneNumber
  | FieldName.position => r.position
  | FieldName.relevantExperience => r.relevantExperience
  | FieldName.portfolioURL => r.portfolioURL
  | FieldName.managementExperience => r.managementExperience
  | FieldName.additionalSkills => r.additionalSkills
  | FieldName.interviewTime => r.interviewTime

/-- Abbreviated yup default locale type-error message for a path. -/
def numberTypeDefaultMsg (path : String) : String :=
  path ++ " must be a `number` type"

/-- Abbreviated yup default locale type-error message for a path. -/
def dateTypeDefaultMsg (path : String) : String :=
  path ++ " must be a `date` type"

/-- Abbreviated yup default locale type-error message for a path. -/
def arrayTypeDefaultMsg (path : String) : String :=
  path ++ " must be a `array` type"

/-- Abbreviated yup default locale type-error message for a path. -/
def stringTypeDefaultMsg (path : String) : String :=
  path ++ " must be a `string` type"

/-- The schema of App.js lines 7-26, with each `when('position', ...)`
conditional resolved against the record: when the `is` predicate holds,
yup concatenates the `then` schema onto the base chain (appending its
tests and overriding its type-error message); otherwise the base chain
alone applies. -/
def schemaFor (f : FieldName) (r : Record) : FieldSchema :=
  match f with
  | FieldName.fullName =>
    ⟨stringTypeC (stringTypeDefaultMsg "fullName"),
     [requiredStrC "Full Name is required"]⟩
  | FieldName.email =>
    ⟨stringTypeC (stringTypeDefaultMsg "email"),
     [formatC isEmail "Invalid email format", requiredStrC "Email is required"]⟩
  | FieldName.phoneNumber =>
    ⟨numberTypeC "Phone Number must be a valid number",
     [requiredNumC "Phone Number is required"]⟩
  | FieldName.position =>
    ⟨stringTypeC (stringTypeDefaultMsg "position"),
     [requiredStrC "Position is required"]⟩
  | FieldName.relevantExperience =>
    if r.position = JSValue.vStr "Developer" ∨ r.position = JSValue.vStr "Designer" then
      ⟨numberTypeC "Relevant Experience must be a valid number",
       [minNumC 1 "Experience must be greater than 0",
        requiredNumC "Relevant Experience is required"]⟩
    else
      ⟨numberTypeC (numberTypeDefaultMsg "relevantExperience"), []⟩
  | FieldName.portfolioURL =>
    if r.position = JSValue.vStr "Designer" then
      ⟨stringTypeC (stringTypeDefaultMsg "portfolioURL"),
       [formatC isUrl "Invalid URL", requiredStrC "Portfolio URL is required"]⟩
    else
      ⟨stringTypeC (stringTypeDefaultMsg "portfolioURL"),
       [formatC isUrl "Invalid URL"]⟩
  | FieldName.managementExperience =>
    if r.position = JSValue.vStr "Manager" then
      ⟨stringTypeC (stringTypeDefaultMsg "managementExperience"),
       [requiredStrC "Management Experience is required"]⟩
    else
      ⟨stringTypeC (stringTypeDefaultMsg "managementExperience"), []⟩
  | FieldName.additionalSkills =>
    ⟨arrayTypeC (arrayTypeDefaultMsg "additionalSkills"),
     [minArrC 1 "At least one skill must be selected"]⟩
  | FieldName.interviewTime =>
    ⟨dateTypeC (dateTypeDefaultMsg "interviewTime"),
     [requiredDateC "Preferred Interview Time is required"]⟩

/-- Evaluate one field under `abortEarly: false`: a failing type check
yields its message alone (yup runs the remaining tests only when the
type check passed); otherwise every failing test contributes its
message, in test order. -/
def runField (fs : FieldSchema) (v : JSValue) : List String :=
  if fs.typeCheck.pass v then
    (fs.tests.filter (fun c => !(c.pass v))).map Constraint.message
  else [fs.typeCheck.message]

/-- The messages field `f` contributes to `err.inner` for record `r`. -/
def fieldErrors (r : Record) (f : FieldName) : List String :=
  runField (schemaFor f r) (r.get f)

/-- Shape order of the schema's fields (`fieldNames()` of the spec). -/
def fieldNames : List FieldName :=
  [FieldName.fullName, FieldName.email, FieldName.phoneNumber,
   FieldName.position, FieldName.relevantExperience, FieldName.portfolioURL,
   FieldName.managementExperience, FieldName.additionalSkills,
   FieldName.interviewTime]

/-- The flattened `err.inner` list: every field's failures, in shape
order — evaluation never aborts at the first failing field. -/
def innerErrors (r : Record) : List (FieldName × String) :=
  fieldNames.flatMap (fun f => (fieldErrors r f).map (fun m => (f, m)))

/-- `validationSchema.validate(record, \x7b abortEarly: false \x7d)`:
success returns the record itself; failure carries the full inner
error list. -/
def validate (r : Record) : Except (List (FieldName × String)) Record :=
  if innerErrors r = [] then Except.ok r else Except.error (innerErrors r)

/-- The `catch` block of `handleSubmit`: `validationErrors[error.path]
= error.message` over `err.inner` in order, so for each path the last
message written wins. -/
def buildErrorMap (inner : List (FieldName × String)) (f : FieldName) : Option String :=
  (inner.filterMap (fun p => if p.1 = f then some p.2 else none)).getLast?

/-- The error map the form renders for record `r`. -/
def errorsMap (r : Record) : FieldName → Option String :=
  buildErrorMap (innerErrors r)

/-- The component state `handleSubmit` reads and writes: the draft
`formData`, the rendered `errors` map, and `submittedData`. -/
structure AppState where
  formData : Record
  errors : FieldName → Option String
  submittedData : Option Record

/-- `handleSubmit` (App.js lines 60-75): validate `formData`; on
success promote it to `submittedData` and clear the errors; on failure
rebuild the error map. `formData` itself is never written. -/
def handleSubmit (s : AppState) : AppState :=
  match validate s.formData with
  | Except.ok r => { s with submittedData := some r, errors := fun _ => none }
  | Except.error inner => { s with errors := buildErrorMap inner }

/-- The effective constraint sequence of a field: its type check
followed by its tests (the Schema Model's `resolveConstraint`). -/
def constraintSeq (r : Record) (f : FieldName) : List Constraint :=
  (schemaFor f r).typeCheck :: (schemaFor f r).tests

/-- Whether the field's effective constraint rejects the current
value: some member of the effective sequence fails on it. -/
def effRejects (r : Record) (f : FieldName) : Bool :=
  (constraintSeq r f).any (fun c => !(c.pass (r.get f)))

/-- The messages of all violated constraints of a field, in sequence
order (each constraint applied to the raw value in isolation). -/
def violatedMsgs (r : Record) (f : FieldName) : List String :=
  ((constraintSeq r f).filter (fun c => !(c.pass (r.get f)))).map Constraint.message

/-- A fully valid Developer record: every field satisfies its
effective constraint. -/
def recAllValid : Record :=
  { fullName := JSValue.vStr "Ada Lovelace"
    email := JSValue.vStr "ada@example.com"
    phoneNumber := JSValue.vStr "1234567890"
    position := JSValue.vStr "Developer"
    relevantExperience := JSValue.vStr "3"
    portfolioURL := JSValue.vStr ""
    managementExperience := JSValue.vStr ""
    additionalSkills := JSValue.vArr ["CSS"]
    interviewTime := JSValue.vDate 0 }

/-- A Developer record whose portfolio URL is malformed non-URL text. -/
def recDevBadUrl : Record :=
  { recAllValid with portfolioURL := JSValue.vStr "notaurl" }

/-- A Developer record with an empty portfolio URL. -/
def recDevNoUrl : Record := recAllValid

/-- A Manager record with empty management experience whose hidden
`relevantExperience` field still holds non-numeric text. -/
def recMgrBad : Record :=
  { recAllValid with
    position := JSValue.vStr "Manager"
    relevantExperience := JSValue.vStr "abc"
    managementExperience := JSValue.vStr "" }

/-- A Manager record with empty management experience and base-valid
values in the conditionally irrelevant fields. -/
def recMgrOk : Record :=
  { recAllValid with
    position := JSValue.vStr "Manager"
    relevantExperience := JSValue.vUndef
    managementExperience := JSValue.vStr "" }

/-- A Designer record with an empty portfolio URL. -/
def recDesEmpty : Record :=
  { recAllValid with
    position := JSValue.vStr "Designer"
    portfolioURL := JSValue.vStr "" }

/-- A Designer record with a well-formed portfolio URL. -/
def recDesUrl : Record :=
  { recAllValid with
    position := JSValue.vStr "Designer"
    portfolioURL := JSValue.vStr "https://x.com" }

/-- A Developer record with non-numeric text in `relevantExperience`. -/
def recDevAbc : Record :=
  { recAllValid with relevantExperience := JSValue.vStr "abc" }

/-- A record with no skill selected. -/
def recSkillsEmpty : Record :=
  { recAllValid with additionalSkills := JSValue.vArr [] }

/-- A record with the single skill CSS selected. -/
def recSkillsCss : Record := recAllValid

/-- A record whose interview time is missing. -/
def recNoTime : Record :=
  { recAllValid with interviewTime := JSValue.vUndef }

/-- A record whose interview time is an `Invalid Date`. -/
def recBadTime : Record :=
  { recAllValid with interviewTime := JSValue.vInvalidDate }

/-- Helper: the overwrite map keeps, for field `f`, exactly the block
of messages contributed under label `g` when `g = f`. -/
theorem filterMap_label (f g : FieldName) (xs : List String) :
    List.filterMap (fun p => if p.1 = f then some p.2 else none)
      (xs.map (fun m => (g, m))) = if g = f then xs else [] := by
  induction xs with
  | nil => simp
  | cons x t ih =>
    rw [List.map_cons, List.filterMap_cons]
    rw [List.filterMap_map] at ih
    by_cases hgf : g = f
    · subst hgf
      simp [List.filterMap_map, ih]
    · simp [hgf, List.filterMap_map, ih]

/-- Helper: keeping only field `f`'s entries of the inner error list
recovers exactly `f`'s own error block. -/
theorem filterMap_inner (r : Record) (f : FieldName) :
    List.filterMap (fun p => if p.1 = f then some p.2 else none) (innerErrors r)
      = fieldErrors r f := by
  cases f <;>
    (simp only [innerErrors, fieldNames, List.flatMap_cons, List.flatMap_nil,
      List.filterMap_append, filterMap_label, List.append_nil, List.filterMap_nil];
     simp)

/-- Helper: the rendered error entry of a field is the last message of
its own error block. -/
theorem errorsMap_eq (r : Record) (f : FieldName) :
    errorsMap r f = (fieldErrors r f).getLast? := by
  unfold errorsMap buildErrorMap
  rw [filterMap_inner]

/-- Helper: a field contributes no error message exactly when no
member of its effective constraint sequence rejects its value. -/
theorem fieldErrors_eq_nil_iff (r : Record) (f : FieldName) :
    fieldErrors r f = [] ↔ effRejects r f = false := by
  by_cases htc : (schemaFor f r).typeCheck.pass (r.get f) = true
  · simp [fieldErrors, runField, effRejects, constraintSeq, htc,
      List.map_eq_nil_iff, List.filter_eq_nil_iff, List.any_eq_true]
  · have htc0 : (schemaFor f r).typeCheck.pass (r.get f) = false := by
      simpa using htc
    simp [fieldErrors, runField, effRejects, constraintSeq, htc0]

/-- Helper: an error entry is present exactly when the field's
effective constraint rejects the value. -/
theorem errorsMap_isSome (r : Record) (f : FieldName) :
    (errorsMap r f).isSome = effRejects r f := by
  rw [errorsMap_eq]
  cases h : effRejects r f
  · have hnil : fieldErrors r f = [] := (fieldErrors_eq_nil_iff r f).mpr h
    simp [hnil]
  · have hne : fieldErrors r f ≠ [] := by
      intro hnil
      have := (fieldErrors_eq_nil_iff r f).mp hnil
      simp [h] at this
    simpa using List.getLast?_isSome.mpr hne

/-- Helper: the inner error list is empty exactly when every field's
block is empty. -/
theorem innerErrors_eq_nil_iff (r : Record) :
    innerErrors r = [] ↔ ∀ f, fieldErrors r f = [] := by
  constructor
  · intro h f
    have hf := filterMap_inner r f
    rw [h] at hf
    simpa using hf.symm
  · intro h
    simp [innerErrors, h]

/-- Helper: a failing field forces `validate` to return the error
result carrying the full inner list. -/
theorem validate_error_of_field (r : Record) (f : FieldName)
    (hf : fieldErrors r f ≠ []) :
    validate r = Except.error (innerErrors r) := by
  have hne : innerErrors r ≠ [] := fun hnil => hf ((innerErrors_eq_nil_iff r).mp hnil f)
  simp [validate, hne]

/-- Helper: filtering a one-element list keeps at most one element. -/
theorem filter_one_len (p : Constraint → Bool) (c : Constraint) :
    (List.filter p [c]).length ≤ 1 := by
  cases h : p c <;> simp [List.filter, h]

/-- Helper: when the two constraints cannot both fail, filtering the
pair for failures keeps at most one element. -/
theorem filter_two_len (p : Constraint → Bool) (c1 c2 : Constraint)
    (hx : p c1 = false ∨ p c2 = false) :
    (List.filter p [c1, c2]).length ≤ 1 := by
  rcases hx with hx | hx <;> cases h1 : p c1 <;> cases h2 : p c2 <;>
    simp_all [List.filter]

/-- Helper: a format test (which skips absent and empty values) and a
string `required` test can never fail together on one value. -/
theorem notfail_format_or_required (chk : String → Bool) (m1 m2 : String) (v : JSValue) :
    (!((formatC chk m1).pass v)) = false ∨ (!((requiredStrC m2).pass v)) = false := by
  cases hv : castString v with
  | none => left; simp [formatC, hv]
  | some s =>
    by_cases hs : s = ""
    · left; simp [formatC, hv, hs]
    · right; simp [requiredStrC, hv, hs]

/-- Helper: a numeric minimum test (which skips absent values) and a
number `required` test (which fails only on absent values) can never
fail together on one value. -/
theorem notfail_min_or_required (n : Nat) (m1 m2 : String) (v : JSValue) :
    (!((minNumC n m1).pass v)) = false ∨ (!((requiredNumC m2).pass v)) = false := by
  cases hv : castNumber v with
  | absent => left; simp [minNumC, hv]
  | nan => right; simp [requiredNumC, hv]
  | num q => right; simp [requiredNumC, hv]

/-- Helper: under any position other than Designer, the portfolio URL
field carries only its base URL-format constraint, so it contributes
no error exactly when the value is absent, empty, or a well-formed
URL. -/
theorem portfolio_base_none (r : Record) (hnd : ¬ r.position = JSValue.vStr "Designer") :
    errorsMap r FieldName.portfolioURL = none ↔
      (castString r.portfolioURL = none ∨ castString r.portfolioURL = some "" ∨
        ∃ s, castString r.portfolioURL = some s ∧ isUrl s = true) := by
  have hs : schemaFor FieldName.portfolioURL r =
      ⟨stringTypeC (stringTypeDefaultMsg "portfolioURL"), [formatC isUrl "Invalid URL"]⟩ := by
    simp [schemaFor, hnd]
  rw [errorsMap_eq]
  have hget : r.get FieldName.portfolioURL = r.portfolioURL := rfl
  cases hv : castString r.portfolioURL with
  | none =>
    simp [fieldErrors, hs, runField, stringTypeC, hget, formatC, hv]
  | some s =>
    by_cases hs0 : s = ""
    · simp [fieldErrors, hs, runField, stringTypeC, hget, formatC, hv, hs0]
    · cases hu : isUrl s <;>
        simp [fieldErrors, hs, runField, stringTypeC, hget, formatC, hv, hs0, hu]

/-- C1: for every candidate record, the error mapping contains an entry
for a field iff the field's effective constraint sequence (base rule,
with the matching conditional override resolved into it) rejects the
field's current value; hence the number of fields carrying an error
entry equals the number of rejecting fields — evaluation is exhaustive
across fields, never aborting at the first failure. -/
theorem error_entry_iff_rejection (r : Record) :
    (∀ f, (errorsMap r f).isSome = effRejects r f) ∧
    (fieldNames.filter (fun f => (errorsMap r f).isSome)).length =
      (fieldNames.filter (fun f => effRejects r f)).length := by
  refine ⟨errorsMap_isSome r, ?_⟩
  have h : fieldNames.filter (fun f => (errorsMap r f).isSome) =
      fieldNames.filter (fun f => effRejects r f) :=
    List.filter_congr (fun f _ => errorsMap_isSome r f)
  rw [h]

/-- C2: when every field satisfies its effective constraint, `validate`
returns Success with the very record it was given, and `handleSubmit`
promotes that record to the submitted data with an empty error map. -/
theorem validate_success_on_valid (r : Record) (h : ∀ f, effRejects r f = false) :
    validate r = Except.ok r ∧
    ∀ (e : FieldName → Option String) (d : Option Record),
      handleSubmit ⟨r, e, d⟩ = ⟨r, fun _ => none, some r⟩ := by
  have hnil : innerErrors r = [] :=
    (innerErrors_eq_nil_iff r).mpr (fun f => (fieldErrors_eq_nil_iff r f).mpr (h f))
  refine ⟨by simp [validate, hnil], ?_⟩
  intro e d
  simp [handleSubmit, validate, hnil]

/-- Witness for C2 at a concrete fully valid Developer record. -/
theorem validate_success_on_valid_w :
    (∀ f, effRejects recAllValid f = false) ∧
    validate recAllValid = Except.ok recAllValid ∧
    handleSubmit ⟨recAllValid, fun _ => none, none⟩ =
      ⟨recAllValid, fun _ => none, some recAllValid⟩ :=
  ⟨by decide, (validate_success_on_valid recAllValid (by decide)).1,
   (validate_success_on_valid recAllValid (by decide)).2 (fun _ => none) none⟩

/-- C9: `handleSubmit` never writes the draft record: the candidate
record is identical before and after the call, on the Success path and
the Failure path alike. -/
theorem evaluator_never_mutates (s : AppState) :
    (handleSubmit s).formData = s.formData := by
  unfold handleSubmit
  cases validate s.formData <;> rfl

/-- Counterexample for C3: a Developer record whose portfolio URL holds
malformed non-URL text does receive an error entry for `portfolioURL`,
so the claim that the field's effective constraint is a no-op under
position = Developer is false. -/
theorem developer_portfolio_cex :
    ¬ (∀ r : Record, r.position = JSValue.vStr "Developer" →
        errorsMap r FieldName.portfolioURL = none) := by
  intro h
  exact absurd (h recDevBadUrl rfl) (by decide)

/-- C3 (amended): under position = Developer the conditional `required`
override does not apply, but the base URL-format rule remains in
force: `portfolioURL` gets no error exactly when its value is absent,
empty, or a well-formed URL; in particular an empty value never
produces an error. -/
theorem developer_portfolio_not_required (r : Record)
    (h : r.position = JSValue.vStr "Developer") :
    (r.portfolioURL = JSValue.vStr "" → errorsMap r FieldName.portfolioURL = none) ∧
    (errorsMap r FieldName.portfolioURL = none ↔
      (castString r.portfolioURL = none ∨ castString r.portfolioURL = some "" ∨
        ∃ s, castString r.portfolioURL = some s ∧ isUrl s = true)) := by
  have hnd : ¬ r.position = JSValue.vStr "Designer" := by rw [h]; decide
  have key := portfolio_base_none r hnd
  refine ⟨fun hp => key.mpr ?_, key⟩
  rw [hp]
  exact Or.inr (Or.inl rfl)

/-- Witness for C3's amended claim at a concrete Developer record with
an empty portfolio URL. -/
theorem developer_portfolio_not_required_w :
    errorsMap recDevNoUrl FieldName.portfolioURL = none :=
  (developer_portfolio_not_required recDevNoUrl rfl).1 rfl

/-- Counterexample for C4: a Manager record with empty management
experience whose hidden `relevantExperience` field holds non-numeric
text receives an error entry for `relevantExperience`, so the claim
that its constraint is a no-op regardless of the raw value is false. -/
theorem manager_errors_cex :
    ¬ (∀ r : Record, r.position = JSValue.vStr "Manager" →
        r.managementExperience = JSValue.vStr "" →
        errorsMap r FieldName.relevantExperience = none) := by
  intro h
  exact absurd (h recMgrBad rfl rfl) (by decide)

/-- C4 (amended): under position = Manager with empty management
experience, `managementExperience` gets its required error; the
conditional overrides for `relevantExperience` and `portfolioURL` do
not apply, but their base rules remain: `relevantExperience` is
error-free provided its value does not cast to `NaN`, and
`portfolioURL` provided its value is absent, empty, or a well-formed
URL. -/
theorem manager_validation (r : Record) (h : r.position = JSValue.vStr "Manager")
    (hm : r.managementExperience = JSValue.vStr "") :
    errorsMap r FieldName.managementExperience = some "Management Experience is required" ∧
    (castNumber r.relevantExperience ≠ NumCast.nan →
      errorsMap r FieldName.relevantExperience = none) ∧
    ((castString r.portfolioURL = none ∨ castString r.portfolioURL = some "" ∨
        ∃ s, castString r.portfolioURL = some s ∧ isUrl s = true) →
      errorsMap r FieldName.portfolioURL = none) := by
  have hget : r.get FieldName.managementExperience = r.managementExperience := rfl
  have hget2 : r.get FieldName.relevantExperience = r.relevantExperience := rfl
  refine ⟨?_, ?_, ?_⟩
  · rw [errorsMap_eq]
    have h1 : fieldErrors r FieldName.managementExperience =
        ["Management Experience is required"] := by
      simp [fieldErrors, schemaFor, h, runField, stringTypeC, requiredStrC,
        hget, hm, castString]
    rw [h1]
    rfl
  · intro hn
    rw [errorsMap_eq]
    have hc : (castNumber r.relevantExperience == NumCast.nan) = false := by
      simpa using hn
    have h2 : fieldErrors r FieldName.relevantExperience = [] := by
      simp [fieldErrors, schemaFor, h, runField, numberTypeC, hget2, hc]
    rw [h2]
    rfl
  · intro hu
    have hnd : ¬ r.position = JSValue.vStr "Designer" := by rw [h]; decide
    exact (portfolio_base_none r hnd).mpr hu

/-- Witness for C4's amended claim at a concrete Manager record. -/
theorem manager_validation_w :
    errorsMap recMgrOk FieldName.managementExperience =
        some "Management Experience is required" ∧
    errorsMap recMgrOk FieldName.relevantExperience = none ∧
    errorsMap recMgrOk FieldName.portfolioURL = none :=
  ⟨(manager_validation recMgrOk rfl rfl).1,
   (manager_validation recMgrOk rfl rfl).2.1 (by decide),
   (manager_validation recMgrOk rfl rfl).2.2 (Or.inr (Or.inl (by decide)))⟩

/-- C5: under position = Designer the effective constraint for
`portfolioURL` is "required valid URL": an empty value produces the
required-field error, and a well-formed URL produces no error. -/
theorem designer_portfolio_required (r : Record)
    (h : r.position = JSValue.vStr "Designer") :
    (r.portfolioURL = JSValue.vStr "" →
      errorsMap r FieldName.portfolioURL = some "Portfolio URL is required") ∧
    (r.portfolioURL = JSValue.vStr "https://x.com" →
      errorsMap r FieldName.portfolioURL = none) := by
  have hs : schemaFor FieldName.portfolioURL r =
      ⟨stringTypeC (stringTypeDefaultMsg "portfolioURL"),
       [formatC isUrl "Invalid URL", requiredStrC "Portfolio URL is required"]⟩ := by
    simp [schemaFor, h]
  have hget : r.get FieldName.portfolioURL = r.portfolioURL := rfl
  constructor <;>
    (intro hp
     rw [errorsMap_eq]
     simp [fieldErrors, hs, runField, stringTypeC, formatC, requiredStrC,
       hget, hp, castString])
  all_goals decide

/-- Witness for C5 at concrete Designer records with an empty and a
well-formed portfolio URL. -/
theorem designer_portfolio_required_w :
    errorsMap recDesEmpty FieldName.portfolioURL = some "Portfolio URL is required" ∧
    errorsMap recDesUrl FieldName.portfolioURL = none :=
  ⟨(designer_portfolio_required recDesEmpty rfl).1 rfl,
   (designer_portfolio_required recDesUrl rfl).2 rfl⟩

/-- C6: when more than one constraint in a field's effective sequence
is violated by the field's value, the error mapping carries exactly
the message of the first violated constraint of the sequence (the
type check short-circuits the field's remaining tests), even though
evaluation across fields is exhaustive. -/
theorem within_field_first_violation (r : Record) (f : FieldName)
    (h : 1 < (violatedMsgs r f).length) :
    errorsMap r f = (violatedMsgs r f).head? := by
  by_cases htc : (schemaFor f r).typeCheck.pass (r.get f) = true
  · exfalso
    have hv : violatedMsgs r f =
        ((schemaFor f r).tests.filter (fun c => !(c.pass (r.get f)))).map
          Constraint.message := by
      simp [violatedMsgs, constraintSeq, htc]
    rw [hv, List.length_map] at h
    cases f with
    | fullName =>
      have ht : (schemaFor FieldName.fullName r).tests =
          [requiredStrC "Full Name is required"] := rfl
      rw [ht] at h
      have := filter_one_len
        (fun c => !(c.pass (r.get FieldName.fullName))) (requiredStrC "Full Name is required")
      omega
    | email =>
      have ht : (schemaFor FieldName.email r).tests =
          [formatC isEmail "Invalid email format", requiredStrC "Email is required"] := rfl
      rw [ht] at h
      have := filter_two_len (fun c => !(c.pass (r.get FieldName.email))) _ _
        (notfail_format_or_required isEmail "Invalid email format" "Email is required"
          (r.get FieldName.email))
      omega
    | phoneNumber =>
      have ht : (schemaFor FieldName.phoneNumber r).tests =
          [requiredNumC "Phone Number is required"] := rfl
      rw [ht] at h
      have := filter_one_len
        (fun c => !(c.pass (r.get FieldName.phoneNumber))) (requiredNumC "Phone Number is required")
      omega
    | position =>
      have ht : (schemaFor FieldName.position r).tests =
          [requiredStrC "Position is required"] := rfl
      rw [ht] at h
      have := filter_one_len
        (fun c => !(c.pass (r.get FieldName.position))) (requiredStrC "Position is required")
      omega
    | relevantExperience =>
      by_cases hp : r.position = JSValue.vStr "Developer" ∨ r.position = JSValue.vStr "Designer"
      · have ht : (schemaFor FieldName.relevantExperience r).tests =
            [minNumC 1 "Experience must be greater than 0",
             requiredNumC "Relevant Experience is required"] := by
          simp only [schemaFor]
          rw [if_pos hp]
        rw [ht] at h
        have := filter_two_len (fun c => !(c.pass (r.get FieldName.relevantExperience))) _ _
          (notfail_min_or_required 1 "Experience must be greater than 0"
            "Relevant Experience is required" (r.get FieldName.relevantExperience))
        omega
      · have ht : (schemaFor FieldName.relevantExperience r).tests = [] := by
          simp only [schemaFor]
          rw [if_neg hp]
        rw [ht] at h
        simp at h
    | portfolioURL =>
      by_cases hp : r.position = JSValue.vStr "Designer"
      · have ht : (schemaFor FieldName.portfolioURL r).tests =
            [formatC isUrl "Invalid URL", requiredStrC "Portfolio URL is required"] := by
          simp only [schemaFor]
          rw [if_pos hp]
        rw [ht] at h
        have := filter_two_len (fun c => !(c.pass (r.get FieldName.portfolioURL))) _ _
          (notfail_format_or_required isUrl "Invalid URL" "Portfolio URL is required"
            (r.get FieldName.portfolioURL))
        omega
      · have ht : (schemaFor FieldName.portfolioURL r).tests =
            [formatC isUrl "Invalid URL"] := by
          simp only [schemaFor]
          rw [if_neg hp]
        rw [ht] at h
        have := filter_one_len
          (fun c => !(c.pass (r.get FieldName.portfolioURL))) (formatC isUrl "Invalid URL")
        omega
    | managementExperience =>
      by_cases hp : r.position = JSValue.vStr "Manager"
      · have ht : (schemaFor FieldName.managementExperience r).tests =
            [requiredStrC "Management Experience is required"] := by
          simp only [schemaFor]
          rw [if_pos hp]
        rw [ht] at h
        have := filter_one_len
          (fun c => !(c.pass (r.get FieldName.managementExperience)))
          (requiredStrC "Management Experience is required")
        omega
      · have ht : (schemaFor FieldName.managementExperience r).tests = [] := by
          simp only [schemaFor]
          rw [if_neg hp]
        rw [ht] at h
        simp at h
    | additionalSkills =>
      have ht : (schemaFor FieldName.additionalSkills r).tests =
          [minArrC 1 "At least one skill must be selected"] := rfl
      rw [ht] at h
      have := filter_one_len
        (fun c => !(c.pass (r.get FieldName.additionalSkills)))
        (minArrC 1 "At least one skill must be selected")
      omega
    | interviewTime =>
      have ht : (schemaFor FieldName.interviewTime r).tests =
          [requiredDateC "Preferred Interview Time is required"] := rfl
      rw [ht] at h
      have := filter_one_len
        (fun c => !(c.pass (r.get FieldName.interviewTime)))
        (requiredDateC "Preferred Interview Time is required")
      omega
  · have htc0 : (schemaFor f r).typeCheck.pass (r.get f) = false := by simpa using htc
    have h1 : fieldErrors r f = [(schemaFor f r).typeCheck.message] := by
      simp [fieldErrors, runField, htc0]
    have h2 : violatedMsgs r f = (schemaFor f r).typeCheck.message ::
        ((schemaFor f r).tests.filter (fun c => !(c.pass (r.get f)))).map
          Constraint.message := by
      simp [violatedMsgs, constraintSeq, htc0]
    rw [errorsMap_eq, h1, h2]
    rfl

/-- Witness for C6 at a Developer record whose `relevantExperience`
violates both the numeric type check and the minimum constraint: the
reported message is that of the type check, the first in sequence. -/
theorem within_field_first_violation_w :
    1 < (violatedMsgs recDevAbc FieldName.relevantExperience).length ∧
    errorsMap recDevAbc FieldName.relevantExperience =
      (violatedMsgs recDevAbc FieldName.relevantExperience).head? :=
  ⟨by decide, within_field_first_violation recDevAbc FieldName.relevantExperience (by decide)⟩

/-- Helper: on the failure path `handleSubmit` rebuilds the error map
and leaves the previously submitted data untouched. -/
theorem handleSubmit_error (s : AppState)
    (hv : validate s.formData = Except.error (innerErrors s.formData)) :
    (handleSubmit s).errors = errorsMap s.formData ∧
    (handleSubmit s).submittedData = s.submittedData := by
  unfold handleSubmit
  rw [hv]
  exact ⟨rfl, rfl⟩

/-- C7: non-numeric text in `relevantExperience` under position =
Developer is classified as a type-mismatch validation failure, not an
exception: `validate` returns the Failure result carrying the full
error list, and `handleSubmit` surfaces the type-error message while
leaving the submitted data unchanged. -/
theorem numeric_text_is_data_not_exception (r : Record)
    (h : r.position = JSValue.vStr "Developer")
    (he : r.relevantExperience = JSValue.vStr "abc") :
    errorsMap r FieldName.relevantExperience =
      some "Relevant Experience must be a valid number" ∧
    validate r = Except.error (innerErrors r) ∧
    ∀ (e : FieldName → Option String) (d : Option Record),
      (handleSubmit ⟨r, e, d⟩).errors FieldName.relevantExperience =
        some "Relevant Experience must be a valid number" ∧
      (handleSubmit ⟨r, e, d⟩).submittedData = d := by
  have hp : r.position = JSValue.vStr "Developer" ∨ r.position = JSValue.vStr "Designer" :=
    Or.inl h
  have ht : schemaFor FieldName.relevantExperience r =
      ⟨numberTypeC "Relevant Experience must be a valid number",
       [minNumC 1 "Experience must be greater than 0",
        requiredNumC "Relevant Experience is required"]⟩ := by
    simp only [schemaFor]
    rw [if_pos hp]
  have hget : r.get FieldName.relevantExperience = r.relevantExperience := rfl
  have hc : castNumber (JSValue.vStr "abc") = NumCast.nan := by decide
  have h1 : fieldErrors r FieldName.relevantExperience =
      ["Relevant Experience must be a valid number"] := by
    simp [fieldErrors, ht, runField, numberTypeC, hget, he, hc]
  have hv : validate r = Except.error (innerErrors r) :=
    validate_error_of_field r FieldName.relevantExperience (by rw [h1]; simp)
  refine ⟨by rw [errorsMap_eq, h1]; rfl, hv, ?_⟩
  intro e d
  have hh := handleSubmit_error ⟨r, e, d⟩ hv
  refine ⟨?_, hh.2⟩
  rw [hh.1, errorsMap_eq, h1]
  rfl

/-- Witness for C7 at a concrete Developer record holding "abc". -/
theorem numeric_text_is_data_not_exception_w :
    errorsMap recDevAbc FieldName.relevantExperience =
        some "Relevant Experience must be a valid number" ∧
    validate recDevAbc = Except.error (innerErrors recDevAbc) ∧
    (handleSubmit ⟨recDevAbc, fun _ => none, none⟩).submittedData = none :=
  ⟨(numeric_text_is_data_not_exception recDevAbc rfl rfl).1,
   (numeric_text_is_data_not_exception recDevAbc rfl rfl).2.1,
   ((numeric_text_is_data_not_exception recDevAbc rfl rfl).2.2 (fun _ => none) none).2⟩

/-- C8: whatever the position and the rest of the record, an empty
skill selection yields the minimum-selection error for
`additionalSkills`, and any non-empty selection — one item or more,
with no upper bound — yields none. -/
theorem skills_min_one (r : Record) :
    (r.additionalSkills = JSValue.vArr [] →
      errorsMap r FieldName.additionalSkills = some "At least one skill must be selected") ∧
    (∀ xs, r.additionalSkills = JSValue.vArr xs →
      (errorsMap r FieldName.additionalSkills = none ↔ xs ≠ [])) := by
  have hget : r.get FieldName.additionalSkills = r.additionalSkills := rfl
  have key : ∀ xs, r.additionalSkills = JSValue.vArr xs →
      fieldErrors r FieldName.additionalSkills =
        if xs.isEmpty then ["At least one skill must be selected"] else [] := by
    intro xs hx
    cases xs with
    | nil =>
      simp [fieldErrors, schemaFor, runField, arrayTypeC, minArrC, hget, hx, castArray]
    | cons a t =>
      simp [fieldErrors, schemaFor, runField, arrayTypeC, minArrC, hget, hx, castArray]
  constructor
  · intro hx
    rw [errorsMap_eq, key [] hx]
    rfl
  · intro xs hx
    rw [errorsMap_eq, key xs hx]
    cases xs <;> simp

/-- Witness for C8 at concrete records with no skill and one skill. -/
theorem skills_min_one_w :
    errorsMap recSkillsEmpty FieldName.additionalSkills =
        some "At least one skill must be selected" ∧
    errorsMap recSkillsCss FieldName.additionalSkills = none :=
  ⟨(skills_min_one recSkillsEmpty).1 rfl,
   ((skills_min_one recSkillsCss).2 ["CSS"] rfl).mpr (by decide)⟩

/-- Counterexample for C10: when `interviewTime` holds an invalid date
there is an error entry, but its message is yup's date type error,
not "Preferred Interview Time is required" as the claim states. -/
theorem interview_time_message_cex :
    (errorsMap recBadTime FieldName.interviewTime).isSome = true ∧
    ¬ errorsMap recBadTime FieldName.interviewTime =
        some "Preferred Interview Time is required" := by
  exact ⟨by decide, by decide⟩

/-- C10 (amended): `interviewTime` is unconditionally constrained, for
every position: a missing value yields the required-field message and
an invalid date yields the date type-error message, and in both cases
`validate` returns Failure. -/
theorem interview_time_always_required (r : Record) :
    (r.interviewTime = JSValue.vUndef →
      errorsMap r FieldName.interviewTime = some "Preferred Interview Time is required" ∧
      validate r = Except.error (innerErrors r)) ∧
    (r.interviewTime = JSValue.vInvalidDate →
      errorsMap r FieldName.interviewTime = some (dateTypeDefaultMsg "interviewTime") ∧
      validate r = Except.error (innerErrors r)) := by
  have hget : r.get FieldName.interviewTime = r.interviewTime := rfl
  constructor
  · intro hx
    have h1 : fieldErrors r FieldName.interviewTime =
        ["Preferred Interview Time is required"] := by
      simp [fieldErrors, schemaFor, runField, dateTypeC, requiredDateC, hget, hx, castDate]
    exact ⟨by rw [errorsMap_eq, h1]; rfl,
      validate_error_of_field r FieldName.interviewTime (by rw [h1]; simp)⟩
  · intro hx
    have h1 : fieldErrors r FieldName.interviewTime = [dateTypeDefaultMsg "interviewTime"] := by
      simp [fieldErrors, schemaFor, runField, dateTypeC, hget, hx, castDate]
    exact ⟨by rw [errorsMap_eq, h1]; rfl,
      validate_error_of_field r FieldName.interviewTime (by rw [h1]; simp)⟩

/-- Witness for C10's amended claim at concrete records with a missing
and an invalid interview time. -/
theorem interview_time_always_required_w :
    errorsMap recNoTime FieldName.interviewTime =
        some "Preferred Interview Time is required" ∧
    errorsMap recBadTime FieldName.interviewTime =
        some (dateTypeDefaultMsg "interviewTime") :=
  ⟨((interview_time_always_required recNoTime).1 rfl).1,
   ((interview_time_always_required recBadTime).2 rfl).1⟩
